import Mathlib

/-!
Verification of the transaction ingestion pipeline in transaction_feed.py.

The embedding below translates the source file into Lean definitions:
pure helpers become Lean functions, the Postgres table becomes a list of
records, the remote ledger interface becomes an explicit response value or
response function, and Python exceptions become Except values.  Python
builtins that the source calls (float, int, bytes.fromhex, base64.b64decode,
bytes.decode with replacement, datetime.utcfromtimestamp) are modelled
explicitly; each model carries a comment stating the modelling choices.
-/

deriving instance DecidableEq for Except

namespace TransactionFeed

/-- Python exceptions that escape the per-entry processing in main:
only OverflowError, raised by int(...) on an infinite float, is not caught
there (ValueError is caught and degrades to 0). -/
inductive PyError where
  | overflowError
deriving DecidableEq

/-- Exception raised by fetch_account_transactions when the remote response
lacks the "result" envelope key. -/
inductive RetrievalError where
  | unexpectedResponse
deriving DecidableEq

/-! ## Model of the Python float builtin

The source converts the ledger amount with int(float(value_str)).  We model
float(s) as exact decimal parsing: a successfully parsed numeric string
denotes mantissa * 10 ^ exp10 exactly.  IEEE rounding of that value to the
nearest binary double is not modelled, with one exception that the source
code depends on: values whose magnitude reaches 2^1024 - 2^970 (the exact
round-to-nearest overflow threshold of binary64) give an infinite float.
The grammar follows CPython: optional surrounding ASCII whitespace, an
optional sign, then either the keywords inf/infinity/nan (case-insensitive)
or a decimal literal with optional fraction and exponent, where single
underscores may separate digits. -/

/-- ASCII whitespace stripped by float(), per str.strip on ASCII input. -/
def isPyWs (c : Char) : Bool :=
  c == ' ' || c == '\t' || c == '\n' || c == '\r' || c == '\x0b' || c == '\x0c'

/-- Strip ASCII whitespace from both ends of a character list. -/
def stripWs (cs : List Char) : List Char :=
  ((cs.dropWhile isPyWs).reverse.dropWhile isPyWs).reverse

/-- Consume an optional leading sign; returns (isNegative, rest). -/
def parseSign : List Char → Bool × List Char
  | '-' :: rest => (true, rest)
  | '+' :: rest => (false, rest)
  | cs => (false, cs)

/-- Consume a run of decimal digits in which single underscores may stand
between two digits (CPython numeric literal rule).  Returns the value of the
digits consumed, how many digits were consumed, and the rest of the input;
returns none when an underscore is misplaced. -/
def digitRunAux : List Char → Nat → Nat → Option (Nat × Nat × List Char)
  | [], acc, n => some (acc, n, [])
  | [c], acc, n =>
    if c.isDigit then some (acc * 10 + (c.toNat - 48), n + 1, [])
    else if c == '_' then none
    else some (acc, n, [c])
  | c :: d :: rest, acc, n =>
    if c.isDigit then digitRunAux (d :: rest) (acc * 10 + (c.toNat - 48)) (n + 1)
    else if c == '_' then
      if n == 0 then none
      else if d.isDigit then digitRunAux rest (acc * 10 + (d.toNat - 48)) (n + 1)
      else none
    else some (acc, n, c :: d :: rest)

/-- Parse an exponent suffix (after the letter e), requiring the rest of the
input to be exactly an optionally signed digit run. -/
def parseExp (cs : List Char) : Option Int :=
  match parseSign cs with
  | (neg, rest) =>
    match digitRunAux rest 0 0 with
    | some (v, n, []) =>
      if n == 0 then none else some (if neg then -(v : Int) else (v : Int))
    | _ => none

/-- Parse an unsigned decimal float literal into (mantissa, exp10) with
value mantissa * 10 ^ exp10; none on a malformed literal. -/
def parseDecimal (cs : List Char) : Option (Int × Int) :=
  match digitRunAux cs 0 0 with
  | none => none
  | some (iv, ic, rest1) =>
    match rest1 with
    | [] => if ic == 0 then none else some ((iv : Int), 0)
    | 'e' :: rest4 =>
      if ic == 0 then none else (parseExp rest4).map (fun ex => ((iv : Int), ex))
    | 'E' :: rest4 =>
      if ic == 0 then none else (parseExp rest4).map (fun ex => ((iv : Int), ex))
    | '.' :: rest2 =>
      match digitRunAux rest2 0 0 with
      | none => none
      | some (fv, fc, rest3) =>
        if ic + fc == 0 then none
        else
          let m : Int := (iv : Int) * (10 : Int) ^ fc + (fv : Int)
          match rest3 with
          | [] => some (m, -(fc : Int))
          | 'e' :: rest4 => (parseExp rest4).map (fun ex => (m, ex - (fc : Int)))
          | 'E' :: rest4 => (parseExp rest4).map (fun ex => (m, ex - (fc : Int)))
          | _ => none
    | _ => none

/-- Result of the float builtin: an exact finite decimal, an infinity, or
a nan. -/
inductive PyFloat where
  | finite (mantissa exp10 : Int)
  | inf (neg : Bool)
  | nan
deriving DecidableEq

/-- Smallest magnitude that rounds to infinity in binary64 under round to
nearest: 2 ^ 1024 - 2 ^ 970. -/
def overflowBound : Nat := 2 ^ 1024 - 2 ^ 970

/-- Does mAbs * 10 ^ e reach the binary64 overflow threshold?  Stated over
integers by clearing the power of ten denominator when e is negative. -/
def decOverflow (mAbs : Nat) (e : Int) : Bool :=
  if 0 ≤ e then overflowBound ≤ mAbs * 10 ^ e.toNat
  else overflowBound * 10 ^ (-e).toNat ≤ mAbs

/-- Model of the Python float builtin on a string: none means float(s)
raises ValueError. -/
def pyFloatParse (s : String) : Option PyFloat :=
  let cs := stripWs s.data
  match parseSign cs with
  | (neg, cs1) =>
    let low := cs1.map Char.toLower
    if low == "inf".data || low == "infinity".data then some (.inf neg)
    else if low == "nan".data then some .nan
    else
      match parseDecimal cs1 with
      | none => none
      | some (m, e) =>
        if decOverflow m.natAbs e then some (.inf neg)
        else some (.finite (if neg then -m else m) e)

/-- Truncation toward zero of mantissa * 10 ^ exp10, the behaviour of the
Python int builtin on a finite float. -/
def decTrunc (m e : Int) : Int :=
  if 0 ≤ e then m * (10 : Int) ^ e.toNat
  else Int.tdiv m ((10 : Int) ^ (-e).toNat)

/-- Model of the amount conversion in main:
try amount_int = int(float(value_str)) except ValueError amount_int = 0.
float raising ValueError is caught (ok 0); int of a nan raises ValueError,
also caught (ok 0); int of an infinity raises OverflowError, which the
except clause does not catch, so it escapes. -/
def convert_amount (value_str : String) : Except PyError Int :=
  match pyFloatParse value_str with
  | none => .ok 0
  | some .nan => .ok 0
  | some (.inf _) => .error .overflowError
  | some (.finite m e) => .ok (decTrunc m e)

/-! ## Model of bytes.fromhex, base64.b64decode and bytes.decode -/

/-- Value of one hexadecimal digit. -/
def hexDigit (c : Char) : Option Nat :=
  if c.isDigit then some (c.toNat - 48)
  else if 'a' ≤ c ∧ c ≤ 'f' then some (c.toNat - 87)
  else if 'A' ≤ c ∧ c ≤ 'F' then some (c.toNat - 55)
  else none

/-- Pair up hexadecimal digits into bytes; none on a non-digit or on odd
length, the cases where bytes.fromhex raises ValueError. -/
def pairHex : List Char → Option (List Nat)
  | [] => some []
  | [_] => none
  | c1 :: c2 :: rest =>
    match hexDigit c1, hexDigit c2 with
    | some h, some l =>
      match pairHex rest with
      | some bs => some ((16 * h + l) :: bs)
      | none => none
    | _, _ => none

/-- Model of bytes.fromhex: space characters between bytes are skipped,
then the digits are paired up.  (Which whitespace is skipped varies by
CPython version; spaces are accepted by all of them and no claim input
contains whitespace.) -/
def bytesFromHex (s : String) : Option (List Nat) :=
  pairHex (s.data.filter (fun c => c ≠ ' '))

/-- Value of one base64 alphabet character. -/
def b64Val (c : Char) : Option Nat :=
  if 'A' ≤ c ∧ c ≤ 'Z' then some (c.toNat - 65)
  else if 'a' ≤ c ∧ c ≤ 'z' then some (c.toNat - 71)
  else if c.isDigit then some (c.toNat + 4)
  else if c = '+' then some 62
  else if c = '/' then some 63
  else none

/-- Decode base64 quads.  A quad of four alphabet characters yields three
bytes; a final quad with one or two padding characters yields two bytes or
one; a leftover of fewer than four characters is the incorrect-padding
error of binascii. -/
def b64Quads : Nat → List Char → Option (List Nat)
  | _, [] => some []
  | _, [_] => none
  | _, [_, _] => none
  | _, [_, _, _] => none
  | fuel + 1, a :: b :: c :: d :: rest =>
    match b64Val a, b64Val b with
    | some va, some vb =>
      if c == '=' then
        if d == '=' && rest.isEmpty then some [va * 4 + vb / 16] else none
      else
        match b64Val c with
        | some vc =>
          if d == '=' then
            if rest.isEmpty then some [va * 4 + vb / 16, (vb % 16) * 16 + vc / 4]
            else none
          else
            match b64Val d with
            | some vd =>
              match b64Quads fuel rest with
              | some bs =>
                some ((va * 4 + vb / 16) :: ((vb % 16) * 16 + vc / 4)
                      :: ((vc % 4) * 64 + vd) :: bs)
              | none => none
            | none => none
        | none => none
    | _, _ => none
  | 0, _ :: _ :: _ :: _ :: _ => none

/-- Model of base64.b64decode with default validation: characters outside
the base64 alphabet and padding are discarded first (the binascii
behaviour), then quads are decoded; none is a binascii.Error.  Padding is
accepted only at the end, the shape produced by every conforming encoder. -/
def b64decode (s : String) : Option (List Nat) :=
  let cs := s.data.filter (fun c => (b64Val c).isSome || c == '=')
  b64Quads cs.length cs

/-- Replacement character used by bytes.decode with errors replace. -/
def replChar : Char := Char.ofNat 0xFFFD

/-- Is a byte a UTF-8 continuation byte? -/
def isCont (b : Nat) : Bool := 0x80 ≤ b && b < 0xC0

/-- Constraint on the first continuation byte of a three-byte sequence
(ruling out overlong encodings and surrogates, as CPython does). -/
def cont3ok (b c : Nat) : Bool :=
  if b == 0xE0 then 0xA0 ≤ c && c < 0xC0
  else if b == 0xED then 0x80 ≤ c && c < 0xA0
  else isCont c

/-- Constraint on the first continuation byte of a four-byte sequence. -/
def cont4ok (b c : Nat) : Bool :=
  if b == 0xF0 then 0x90 ≤ c && c < 0xC0
  else if b == 0xF4 then 0x80 ≤ c && c < 0x90
  else isCont c

/-- UTF-8 decoding with replacement of invalid sequences, following the
CPython policy: on an invalid or truncated sequence one replacement
character is produced and decoding resumes at the offending byte.  The
fuel argument makes the recursion structural; it is instantiated with the
length of the byte list, which at least one consumed byte per step makes
sufficient. -/
def utf8CharsF : Nat → List Nat → List Char
  | 0, _ => []
  | _ + 1, [] => []
  | fuel + 1, b :: rest =>
    if b < 0x80 then Char.ofNat b :: utf8CharsF fuel rest
    else if b < 0xC2 then replChar :: utf8CharsF fuel rest
    else if b < 0xE0 then
      match rest with
      | [] => [replChar]
      | c1 :: rest1 =>
        if isCont c1 then
          Char.ofNat ((b - 0xC0) * 0x40 + (c1 - 0x80)) :: utf8CharsF fuel rest1
        else replChar :: utf8CharsF fuel rest
    else if b < 0xF0 then
      match rest with
      | [] => [replChar]
      | c1 :: rest1 =>
        if cont3ok b c1 then
          match rest1 with
          | [] => [replChar]
          | c2 :: rest2 =>
            if isCont c2 then
              Char.ofNat ((b - 0xE0) * 0x1000 + (c1 - 0x80) * 0x40 + (c2 - 0x80))
                :: utf8CharsF fuel rest2
            else replChar :: utf8CharsF fuel rest1
        else replChar :: utf8CharsF fuel rest
    else if b < 0xF5 then
      match rest with
      | [] => [replChar]
      | c1 :: rest1 =>
        if cont4ok b c1 then
          match rest1 with
          | [] => [replChar]
          | c2 :: rest2 =>
            if isCont c2 then
              match rest2 with
              | [] => [replChar]
              | c3 :: rest3 =>
                if isCont c3 then
                  Char.ofNat ((b - 0xF0) * 0x40000 + (c1 - 0x80) * 0x1000
                      + (c2 - 0x80) * 0x40 + (c3 - 0x80)) :: utf8CharsF fuel rest3
                else replChar :: utf8CharsF fuel rest2
            else replChar :: utf8CharsF fuel rest1
        else replChar :: utf8CharsF fuel rest
    else replChar :: utf8CharsF fuel rest

/-- Model of decoded_bytes.decode with utf-8 and errors replace: total,
invalid bytes replaced, never rejected. -/
def utf8DecodeReplace (bs : List Nat) : String :=
  String.mk (utf8CharsF bs.length bs)

/-- Translation of decode_hex_or_base64: empty input gives the empty
string; otherwise try hex first, then base64, and fall back to returning
the input unchanged.  Total by construction, so decoding never raises. -/
def decode_hex_or_base64 (encoded_str : String) : String :=
  if encoded_str = "" then ""
  else
    match bytesFromHex encoded_str with
    | some bs => utf8DecodeReplace bs
    | none =>
      match b64decode encoded_str with
      | some bs => utf8DecodeReplace bs
      | none => encoded_str

/-! ## Transaction data model

The source reads transactions as JSON dictionaries with tx.get(...) for
every field, so every field is optional here; an absent field is none.
The Amount field is either a dictionary (an IOU amount, itself with
optional keys) or a bare string (a native XRP amount in drops). -/

/-- A Payment amount: either the structured IOU dictionary or the bare
native-currency string. -/
inductive PyAmount where
  | dict (issuer currency value : Option String)
  | str (s : String)
deriving DecidableEq

/-- The inner Memo dictionary of one Memos entry. -/
structure MemoObj where
  MemoData : Option String
deriving DecidableEq

/-- One entry of the Memos array; memo_entry.get reads its Memo key with
an empty dictionary as default. -/
structure MemoEntry where
  Memo : Option MemoObj
deriving DecidableEq

/-- The tx dictionary of one account_tx entry, restricted to the keys the
source reads. -/
structure Tx where
  TransactionType : Option String
  Amount : Option PyAmount
  Account : Option String
  Destination : Option String
  hash : Option String
  date : Option Int
  ledger_index : Option Int
  Memos : Option (List MemoEntry)
deriving DecidableEq

/-- The empty tx dictionary, the default of entry.get. -/
def emptyTx : Tx := ⟨none, none, none, none, none, none, none, none⟩

/-- One entry of the transactions array; the source reads entry.get with
an empty dictionary as default (the meta key is read but never used). -/
structure Entry where
  tx : Option Tx
deriving DecidableEq

/-- Reading of the tx key as the source performs it. -/
def Entry.getTx (e : Entry) : Tx := e.tx.getD emptyTx

/-- Data string of one memo entry as extract_memos reads it:
memo_entry.get of Memo with default empty dictionary, then memo.get of
MemoData with default empty string. -/
def memoEntryData (me : MemoEntry) : String :=
  match me.Memo with
  | none => ""
  | some mo => mo.MemoData.getD ""

/-- Translation of extract_memos: an absent or empty Memos list gives the
empty string, otherwise each entry is decoded and the results are joined
with newline separators. -/
def extract_memos (transaction : Tx) : String :=
  match transaction.Memos.getD [] with
  | [] => ""
  | l => String.intercalate "\n" (l.map (fun me => decode_hex_or_base64 (memoEntryData me)))

/-- Translation of is_token_payment: true iff the TransactionType is
Payment, the Amount is a dictionary, and its issuer and currency keys
equal the configured issuer and currency code. -/
def is_token_payment (tx : Tx) (currency_code issuer : String) : Bool :=
  if tx.TransactionType ≠ some "Payment" then false
  else
    match tx.Amount with
    | some (.dict iss cur _) => iss == some issuer && cur == some currency_code
    | _ => false

/-- Configured currency code of the tracked token. -/
def CURRENCY_CODE : String := "PFT"

/-- Configured issuer address of the tracked token. -/
def ISSUER_ADDRESS : String := "rnQUEEg8yyjrwk9FhyXpKavHyCRJM9BDMW"

/-! ## Date and time handling -/

/-- Translation of ripple_to_unix_time: ledger epoch seconds plus the
946684800-second offset between 2000-01-01 and 1970-01-01. -/
def ripple_to_unix_time (ripple_time : Int) : Int := ripple_time + 946684800

/-- A UTC civil datetime at second precision, the content of the Python
datetime object the source stores. -/
structure CivilDateTime where
  year : Int
  month : Int
  day : Int
  hour : Int
  minute : Int
  second : Int
deriving DecidableEq

/-- Civil calendar date from a count of days since 1970-01-01 (proleptic
Gregorian), the era-based algorithm used by standard date libraries. -/
def civilFromDays (z0 : Int) : Int × Int × Int :=
  let z := z0 + 719468
  let era := z.fdiv 146097
  let doe := z - era * 146097
  let yoe := (doe - doe.fdiv 1460 + doe.fdiv 36524 - doe.fdiv 146096).fdiv 365
  let y := yoe + era * 400
  let doy := doe - (365 * yoe + yoe.fdiv 4 - yoe.fdiv 100)
  let mp := (5 * doy + 2).fdiv 153
  let d := doy - (153 * mp + 2).fdiv 5 + 1
  let m := if mp < 10 then mp + 3 else mp - 9
  (y + (if m ≤ 2 then 1 else 0), m, d)

/-- Model of datetime.datetime.utcfromtimestamp: the UTC civil datetime
that lies u seconds after 1970-01-01T00:00:00 UTC. -/
def utcfromtimestamp (u : Int) : CivilDateTime :=
  let days := u.fdiv 86400
  let rem := u.emod 86400
  match civilFromDays days with
  | (y, m, d) => ⟨y, m, d, rem.fdiv 3600, (rem.emod 3600).fdiv 60, rem.emod 60⟩

/-- Translation of get_ripple_datetime. -/
def get_ripple_datetime (ripple_time : Int) : CivilDateTime :=
  utcfromtimestamp (ripple_to_unix_time ripple_time)

/-! ## Database model

The pft_transactions table is a list of rows; its order is an artifact of
the model (SQL rows are unordered) but all operations below are
deterministic, so state equalities are meaningful. -/

/-- One row of pft_transactions. -/
structure TxRecord where
  ledger_index : Int
  transaction_hash : String
  from_address : String
  to_address : String
  memo : String
  amount : Int
  transaction_timestamp : Option CivilDateTime
deriving DecidableEq

/-- The stored table. -/
abbrev DB := List TxRecord

/-- Does some stored row carry the given transaction hash? -/
def hashPresent (db : DB) (h : String) : Bool :=
  db.any (fun r => r.transaction_hash == h)

/-- Translation of insert_transaction: INSERT with ON CONFLICT
(transaction_hash) DO NOTHING.  A row whose hash is already stored leaves
the table unchanged and reports no error; otherwise the row is added. -/
def insert_transaction (db : DB) (r : TxRecord) : DB :=
  if hashPresent db r.transaction_hash then db else db ++ [r]

/-- Fold a running maximum of ledger_index over rows, seeded with a. -/
def maxFrom (a : Int) (l : DB) : Int :=
  l.foldl (fun m x => max m x.ledger_index) a

/-- Translation of get_last_stored_ledger_index: SELECT MAX(ledger_index)
gives NULL on an empty table, which the source maps to -1; on a nonempty
table it is the maximum over all rows. -/
def get_last_stored_ledger_index : DB → Int
  | [] => -1
  | r :: rest => maxFrom r.ledger_index rest

/-- The lower fetch bound main computes: ledger_index_min =
last_ledger_index + 1. -/
def runLowerBound (db : DB) : Int := get_last_stored_ledger_index db + 1

/-! ## Per-entry processing of main -/

/-- The value string main extracts from the Amount field: the value key
of the dictionary with default "0", or the bare string itself.  An absent
Amount reads as the default empty dictionary, whose value key gives "0". -/
def entryValueStr (tx : Tx) : String :=
  match tx.Amount with
  | some (.dict _ _ v) => v.getD "0"
  | some (.str s) => s
  | none => "0"

/-- The row main builds for one matching transaction: field defaults as
in the source (empty strings, ledger index 0), amount through
convert_amount (whose OverflowError escapes), timestamp through
get_ripple_datetime only when the date field is present. -/
def mkRecord (tx : Tx) : Except PyError TxRecord :=
  match convert_amount (entryValueStr tx) with
  | .error e => .error e
  | .ok amount_int =>
    .ok ⟨tx.ledger_index.getD 0, tx.hash.getD "", tx.Account.getD "",
         tx.Destination.getD "", extract_memos tx, amount_int,
         tx.date.map get_ripple_datetime⟩

/-- Processing of one fetched entry in the body of the main loop: a
transaction that fails is_token_payment is dropped without touching
storage; a matching one is converted and inserted with duplicate hashes
ignored. -/
def processEntry (currency issuer : String) (db : DB) (e : Entry) : Except PyError DB :=
  if is_token_payment e.getTx currency issuer then
    match mkRecord e.getTx with
    | .error err => .error err
    | .ok r => .ok (insert_transaction db r)
  else .ok db

/-- Processing of a fetched batch, entry by entry in order; the first
escaping exception aborts the rest. -/
def processBatch (currency issuer : String) (db : DB) : List Entry → Except PyError DB
  | [] => .ok db
  | e :: rest =>
    match processEntry currency issuer db e with
    | .error err => .error err
    | .ok db2 => processBatch currency issuer db2 rest

/-- The ledger index main reads from an entry: tx.get of ledger_index
with default 0. -/
def entryLedgerIndex (e : Entry) : Int := e.getTx.ledger_index.getD 0

/-- Modelled remote source: over a whole run, the account_tx method
returns exactly the universe entries whose ledger index is at least the
requested ledger_index_min (the upper bound is fixed at no limit).  The
split into pages does not affect the final stored state, because rows are
appended entry by entry in order and every page is committed, so the
paginated loop is collapsed to one batch here; the paginated loop itself
is modelled separately below as runLoop. -/
def accountTxEntries (remoteTxs : List Entry) (minIdx : Int) : List Entry :=
  remoteTxs.filter (fun e => decide (minIdx ≤ entryLedgerIndex e))

/-- One full completed run of main against an unchanged remote source
holding the given universe of entries: compute the resumption bound from
storage, fetch everything at or above it, and process it in order. -/
def runPipeline (currency issuer : String) (remoteTxs : List Entry) (db : DB) :
    Except PyError DB :=
  processBatch currency issuer db (accountTxEntries remoteTxs (runLowerBound db))

/-! ## The paginated fetch loop -/

/-- A successful fetch_account_transactions result: one page of entries
and an optional continuation marker. -/
structure FetchOk where
  txs : List Entry
  marker : Option Nat
deriving DecidableEq

/-- The result envelope of an account_tx response, with its transactions
array (default empty) and optional continuation marker. -/
structure AccountTxResult where
  transactions : List Entry
  marker : Option Nat

/-- A raw JSON RPC response: the result key may be absent. -/
structure RpcResponse where
  result : Option AccountTxResult

/-- Translation of fetch_account_transactions applied to the remote
response: a response without the result envelope raises (the fatal
RetrievalError of the specification); otherwise the transactions and the
continuation marker are returned. -/
def fetch_account_transactions (resp : RpcResponse) : Except RetrievalError FetchOk :=
  match resp.result with
  | none => .error .unexpectedResponse
  | some r => .ok ⟨r.transactions, r.marker⟩

/-- Final state of a run of the fetch loop: either completed, or aborted
by an uncaught exception with storage left at the last committed state. -/
inductive RunOutcome where
  | completed (db : DB)
  | aborted (db : DB)
deriving DecidableEq

/-- Translation of the while loop of main.  The remote is a function from
the continuation marker to a fetch result; db is the committed storage
state.  A fetch that raises aborts with storage unchanged since the last
commit; a batch whose processing raises likewise aborts before its commit;
otherwise the batch is committed, and the loop stops exactly when the
response carries no marker.  The fuel argument bounds the number of fetch
calls so that the possibly endless loop is a total function; none means
the loop was still running when the fuel ran out. -/
def runLoop (currency issuer : String)
    (fetch : Option Nat → Except RetrievalError FetchOk) :
    Nat → Option Nat → DB → Option RunOutcome
  | 0, _, _ => none
  | fuel + 1, marker, db =>
    match fetch marker with
    | .error _ => some (.aborted db)
    | .ok resp =>
      match processBatch currency issuer db resp.txs with
      | .error _ => some (.aborted db)
      | .ok db2 =>
        match resp.marker with
        | none => some (.completed db2)
        | some m => runLoop currency issuer fetch fuel (some m) db2

/-- The fetch function induced by a remote that answers each marker with
a raw response, composed with the envelope check of
fetch_account_transactions. -/
def fetchOf (raw : Option Nat → RpcResponse) :
    Option Nat → Except RetrievalError FetchOk :=
  fun m => fetch_account_transactions (raw m)

/-- The hash main reads from an entry: tx.get of hash with default
empty string. -/
def entryHash (e : Entry) : String := e.getTx.hash.getD ""

/-- Number of stored rows carrying a given transaction hash. -/
def countHash (db : DB) (h : String) : Nat :=
  (db.filter (fun r => r.transaction_hash == h)).length

/-! ## Infrastructure lemmas about the writer and the cursor -/

lemma insert_of_present (db : DB) (r : TxRecord)
    (h : hashPresent db r.transaction_hash = true) :
    insert_transaction db r = db := by
  unfold insert_transaction
  rw [if_pos h]

lemma insert_cases (db : DB) (r : TxRecord) :
    insert_transaction db r = db ∨ insert_transaction db r = db ++ [r] := by
  unfold insert_transaction
  split
  · exact Or.inl rfl
  · exact Or.inr rfl

lemma hashPresent_append (db ext : DB) (h : String)
    (hp : hashPresent db h = true) : hashPresent (db ++ ext) h = true := by
  unfold hashPresent at hp ⊢
  rw [List.any_append, hp, Bool.true_or]

lemma hashPresent_insert_mono (db : DB) (r : TxRecord) (h : String)
    (hp : hashPresent db h = true) :
    hashPresent (insert_transaction db r) h = true := by
  rcases insert_cases db r with hc | hc <;> rw [hc]
  · exact hp
  · exact hashPresent_append db [r] h hp

lemma hashPresent_insert_self (db : DB) (r : TxRecord) :
    hashPresent (insert_transaction db r) r.transaction_hash = true := by
  unfold insert_transaction
  split
  · assumption
  · unfold hashPresent
    rw [List.any_append]
    simp [List.any]

lemma mkRecord_fields (tx : Tx) (r : TxRecord) (h : mkRecord tx = .ok r) :
    r.transaction_hash = tx.hash.getD "" ∧
    r.ledger_index = tx.ledger_index.getD 0 ∧
    r.transaction_timestamp = tx.date.map get_ripple_datetime ∧
    r.memo = extract_memos tx ∧
    convert_amount (entryValueStr tx) = .ok r.amount := by
  unfold mkRecord at h
  cases hc : convert_amount (entryValueStr tx) with
  | error err => rw [hc] at h; cases h
  | ok n => rw [hc] at h; cases h; exact ⟨rfl, rfl, rfl, rfl, rfl⟩

lemma processEntry_skip (c i : String) (db : DB) (e : Entry)
    (h : is_token_payment e.getTx c i = false) :
    processEntry c i db e = .ok db := by
  unfold processEntry
  rw [h]
  rfl

lemma processEntry_ok_shape (c i : String) (db db2 : DB) (e : Entry)
    (h : processEntry c i db e = .ok db2) :
    db2 = db ∨ ∃ r, mkRecord e.getTx = .ok r ∧ db2 = insert_transaction db r := by
  unfold processEntry at h
  split at h
  · cases hm : mkRecord e.getTx with
    | error err => rw [hm] at h; cases h
    | ok r => rw [hm] at h; cases h; exact Or.inr ⟨r, rfl, rfl⟩
  · cases h; exact Or.inl rfl

lemma processEntry_hash_mono (c i : String) (db db2 : DB) (e : Entry) (h : String)
    (hp : processEntry c i db e = .ok db2) (hh : hashPresent db h = true) :
    hashPresent db2 h = true := by
  rcases processEntry_ok_shape c i db db2 e hp with rfl | ⟨r, _, rfl⟩
  · exact hh
  · exact hashPresent_insert_mono db r h hh

lemma processEntry_pass_present (c i : String) (db db2 : DB) (e : Entry)
    (h : processEntry c i db e = .ok db2)
    (hp : is_token_payment e.getTx c i = true) :
    (∃ r, mkRecord e.getTx = .ok r) ∧ hashPresent db2 (entryHash e) = true := by
  unfold processEntry at h
  rw [hp] at h
  simp only [if_pos] at h
  cases hm : mkRecord e.getTx with
  | error err => rw [hm] at h; cases h
  | ok r =>
    rw [hm] at h
    cases h
    refine ⟨⟨r, rfl⟩, ?_⟩
    have hself := hashPresent_insert_self db r
    rwa [(mkRecord_fields _ _ hm).1] at hself

lemma processBatch_hash_mono (c i : String) (h : String) :
    ∀ (l : List Entry) (db db2 : DB), processBatch c i db l = .ok db2 →
    hashPresent db h = true → hashPresent db2 h = true := by
  intro l
  induction l with
  | nil => intro db db2 hb hh; cases hb; exact hh
  | cons e rest ih =>
    intro db db2 hb hh
    unfold processBatch at hb
    cases he : processEntry c i db e with
    | error err => rw [he] at hb; cases hb
    | ok dbm =>
      rw [he] at hb
      exact ih dbm db2 hb (processEntry_hash_mono c i db dbm e h he hh)

lemma processBatch_pass_present (c i : String) :
    ∀ (l : List Entry) (db db2 : DB) (e : Entry),
    processBatch c i db l = .ok db2 → e ∈ l →
    is_token_payment e.getTx c i = true →
    (∃ r, mkRecord e.getTx = .ok r) ∧ hashPresent db2 (entryHash e) = true := by
  intro l
  induction l with
  | nil => intro db db2 e hb he; cases he
  | cons e0 rest ih =>
    intro db db2 e hb he hp
    unfold processBatch at hb
    cases h0 : processEntry c i db e0 with
    | error err => rw [h0] at hb; cases hb
    | ok dbm =>
      rw [h0] at hb
      rcases List.mem_cons.1 he with rfl | hmem
      · obtain ⟨hr, hpres⟩ := processEntry_pass_present c i db dbm e h0 hp
        exact ⟨hr, processBatch_hash_mono c i (entryHash e) rest dbm db2 hb hpres⟩
      · exact ih dbm db2 e hb hmem hp

lemma processBatch_ext (c i : String) :
    ∀ (l : List Entry) (db db2 : DB), processBatch c i db l = .ok db2 →
    ∃ ext, db2 = db ++ ext ∧
      ∀ x ∈ ext, ∃ e ∈ l, x.ledger_index = entryLedgerIndex e := by
  intro l
  induction l with
  | nil =>
    intro db db2 hb
    cases hb
    exact ⟨[], by simp⟩
  | cons e0 rest ih =>
    intro db db2 hb
    unfold processBatch at hb
    cases h0 : processEntry c i db e0 with
    | error err => rw [h0] at hb; cases hb
    | ok dbm =>
      rw [h0] at hb
      obtain ⟨ext2, rfl, hprop2⟩ := ih dbm db2 hb
      rcases processEntry_ok_shape c i db dbm e0 h0 with rfl | ⟨r, hr, rfl⟩
      · exact ⟨ext2, rfl, fun x hx =>
          (hprop2 x hx).imp (fun e2 h2 => ⟨List.mem_cons_of_mem _ h2.1, h2.2⟩)⟩
      · rcases insert_cases db r with hc | hc <;> rw [hc]
        · exact ⟨ext2, rfl, fun x hx =>
            (hprop2 x hx).imp (fun e2 h2 => ⟨List.mem_cons_of_mem _ h2.1, h2.2⟩)⟩
        · refine ⟨[r] ++ ext2, by simp, ?_⟩
          intro x hx
          rcases List.mem_append.1 hx with hx | hx
          · rcases List.mem_singleton.1 hx with rfl
            refine ⟨e0, List.mem_cons_self _ _, ?_⟩
            rw [(mkRecord_fields _ _ hr).2.1]
            rfl
          · exact (hprop2 x hx).imp (fun e2 h2 => ⟨List.mem_cons_of_mem _ h2.1, h2.2⟩)

lemma maxFrom_cons (a : Int) (x : TxRecord) (l : DB) :
    maxFrom a (x :: l) = maxFrom (max a x.ledger_index) l := rfl

lemma le_maxFrom (a : Int) (l : DB) : a ≤ maxFrom a l := by
  induction l generalizing a with
  | nil => exact le_refl a
  | cons x l ih =>
    rw [maxFrom_cons]
    exact le_trans (le_max_left _ _) (ih _)

lemma maxFrom_mem_le (l : DB) (x : TxRecord) (hx : x ∈ l) :
    ∀ a : Int, x.ledger_index ≤ maxFrom a l := by
  induction l with
  | nil => cases hx
  | cons y l ih =>
    intro a
    rw [maxFrom_cons]
    rcases List.mem_cons.1 hx with rfl | hmem
    · exact le_trans (le_max_right _ _) (le_maxFrom _ _)
    · exact ih hmem _

lemma maxFrom_eq_or (l : DB) :
    ∀ a : Int, maxFrom a l = a ∨ ∃ x ∈ l, maxFrom a l = x.ledger_index := by
  induction l with
  | nil => intro a; exact Or.inl rfl
  | cons y l ih =>
    intro a
    rw [maxFrom_cons]
    rcases ih (max a y.ledger_index) with h | ⟨x, hx, h⟩
    · rcases max_choice a y.ledger_index with hm | hm
      · exact Or.inl (h.trans hm)
      · exact Or.inr ⟨y, List.mem_cons_self _ _, h.trans hm⟩
    · exact Or.inr ⟨x, List.mem_cons_of_mem _ hx, h⟩

lemma maxFrom_append (a : Int) (l1 l2 : DB) :
    maxFrom a (l1 ++ l2) = maxFrom (maxFrom a l1) l2 := by
  unfold maxFrom
  rw [List.foldl_append]

lemma get_last_mem_le (db : DB) (r : TxRecord) (h : r ∈ db) :
    r.ledger_index ≤ get_last_stored_ledger_index db := by
  cases db with
  | nil => cases h
  | cons r0 rest =>
    unfold get_last_stored_ledger_index
    rcases List.mem_cons.1 h with rfl | hmem
    · exact le_maxFrom _ _
    · exact maxFrom_mem_le rest r hmem _

lemma get_last_is_mem (db : DB) (h : db ≠ []) :
    ∃ r ∈ db, get_last_stored_ledger_index db = r.ledger_index := by
  cases db with
  | nil => exact absurd rfl h
  | cons r0 rest =>
    unfold get_last_stored_ledger_index
    rcases maxFrom_eq_or rest r0.ledger_index with hm | ⟨x, hx, hm⟩
    · exact ⟨r0, List.mem_cons_self _ _, hm⟩
    · exact ⟨x, List.mem_cons_of_mem _ hx, hm⟩

lemma get_last_le_append (db ext : DB)
    (hext : ∀ x ∈ ext, runLowerBound db ≤ x.ledger_index) :
    get_last_stored_ledger_index db ≤ get_last_stored_ledger_index (db ++ ext) := by
  cases db with
  | nil =>
    cases ext with
    | nil => exact le_refl _
    | cons r rest =>
      have h0 : (0 : Int) ≤ r.ledger_index :=
        hext r (List.mem_cons_self _ _)
      have : r.ledger_index ≤ get_last_stored_ledger_index ([] ++ r :: rest) :=
        get_last_mem_le _ r (by simp)
      unfold get_last_stored_ledger_index
      calc (-1 : Int) ≤ r.ledger_index := by omega
        _ ≤ maxFrom r.ledger_index rest := le_maxFrom _ _
  | cons r rest =>
    show maxFrom r.ledger_index rest ≤ get_last_stored_ledger_index ((r :: rest) ++ ext)
    have h2 : get_last_stored_ledger_index ((r :: rest) ++ ext) =
        maxFrom (maxFrom r.ledger_index rest) ext := by
      show maxFrom r.ledger_index (rest ++ ext) = _
      rw [maxFrom_append]
    rw [h2]
    exact le_maxFrom _ _

lemma mem_accountTx (remoteTxs : List Entry) (m : Int) (e : Entry) :
    e ∈ accountTxEntries remoteTxs m ↔ e ∈ remoteTxs ∧ m ≤ entryLedgerIndex e := by
  unfold accountTxEntries
  rw [List.mem_filter]
  simp

lemma processBatch_noop (c i : String) (db : DB) :
    ∀ l : List Entry,
    (∀ e ∈ l, is_token_payment e.getTx c i = true →
        (∃ r, mkRecord e.getTx = .ok r) ∧ hashPresent db (entryHash e) = true) →
    processBatch c i db l = .ok db := by
  intro l
  induction l with
  | nil => intro _; rfl
  | cons e rest ih =>
    intro h
    by_cases hp : is_token_payment e.getTx c i = true
    · obtain ⟨⟨r, hr⟩, hpres⟩ := h e (List.mem_cons_self _ _) hp
      have hhash : r.transaction_hash = entryHash e := (mkRecord_fields _ _ hr).1
      have hins : insert_transaction db r = db :=
        insert_of_present db r (by rw [hhash]; exact hpres)
      have hpe : processEntry c i db e = .ok db := by
        unfold processEntry
        rw [if_pos hp, hr]
        show Except.ok (insert_transaction db r) = Except.ok db
        rw [hins]
      unfold processBatch
      rw [hpe]
      exact ih (fun e2 h2 => h e2 (List.mem_cons_of_mem _ h2))
    · have hp2 : is_token_payment e.getTx c i = false := by
        revert hp; cases is_token_payment e.getTx c i <;> simp
      unfold processBatch
      rw [processEntry_skip c i db e hp2]
      exact ih (fun e2 h2 => h e2 (List.mem_cons_of_mem _ h2))

/-! ## Lemmas about the decoder fallback chain -/

lemma decode_hex_branch (s : String) (bs : List Nat) (h : bytesFromHex s = some bs) :
    decode_hex_or_base64 s = utf8DecodeReplace bs := by
  by_cases hs : s = ""
  · subst hs
    have h0 : bytesFromHex "" = some [] := rfl
    rw [h0] at h
    cases h
    rfl
  · unfold decode_hex_or_base64
    rw [if_neg hs, h]

lemma decode_b64_branch (s : String) (bs : List Nat)
    (hh : bytesFromHex s = none) (hb : b64decode s = some bs) :
    decode_hex_or_base64 s = utf8DecodeReplace bs := by
  have hs : s ≠ "" := by
    intro he
    subst he
    have h0 : bytesFromHex "" = some [] := rfl
    rw [h0] at hh
    cases hh
  unfold decode_hex_or_base64
  rw [if_neg hs, hh, hb]

lemma decode_id_branch (s : String)
    (hh : bytesFromHex s = none) (hb : b64decode s = none) :
    decode_hex_or_base64 s = s := by
  have hs : s ≠ "" := by
    intro he
    subst he
    have h0 : bytesFromHex "" = some [] := rfl
    rw [h0] at hh
    cases hh
  unfold decode_hex_or_base64
  rw [if_neg hs, hh, hb]

lemma extract_memos_join (tx : Tx) :
    extract_memos tx = String.intercalate "\n"
      ((tx.Memos.getD []).map (fun me => decode_hex_or_base64 (memoEntryData me))) := by
  unfold extract_memos
  cases tx.Memos.getD [] with
  | nil => rfl
  | cons m l => rfl

lemma extract_memos_absent (tx : Tx) (h : tx.Memos = none) :
    extract_memos tx = "" := by
  unfold extract_memos
  rw [h]
  rfl

/-! ## Characterization of the payment filter -/

lemma is_token_payment_iff (tx : Tx) (c i : String) :
    is_token_payment tx c i = true ↔
      tx.TransactionType = some "Payment" ∧
      ∃ v, tx.Amount = some (.dict (some i) (some c) v) := by
  unfold is_token_payment
  by_cases ht : tx.TransactionType = some "Payment"
  · rw [if_neg (not_not_intro ht)]
    cases ha : tx.Amount with
    | none => simp [ht]
    | some am =>
      cases am with
      | dict iss cur v =>
        simp only [ht, true_and, Bool.and_eq_true, beq_iff_eq]
        constructor
        · rintro ⟨h1, h2⟩
          exact ⟨v, by rw [h1, h2]⟩
        · rintro ⟨v2, hv⟩
          injection hv with hv
          injection hv with h1 h2 h3
          exact ⟨h1, h2⟩
      | str s => simp [ht]
  · rw [if_pos ht]
    simp [ht]

/-! ## Lemmas about hash multiplicity -/

lemma countHash_append (db ext : DB) (h : String) :
    countHash (db ++ ext) h = countHash db h + countHash ext h := by
  unfold countHash
  rw [List.filter_append, List.length_append]

lemma countHash_of_absent (db : DB) (h : String) (ha : hashPresent db h = false) :
    countHash db h = 0 := by
  unfold countHash
  rw [List.length_eq_zero, List.filter_eq_nil_iff]
  intro r hr hcontra
  unfold hashPresent at ha
  have : db.any (fun r => r.transaction_hash == h) = true :=
    List.any_eq_true.2 ⟨r, hr, hcontra⟩
  rw [ha] at this
  cases this

lemma insert_countHash_le_one (db : DB) (r : TxRecord) (h : String)
    (hc : countHash db h ≤ 1) : countHash (insert_transaction db r) h ≤ 1 := by
  unfold insert_transaction
  split
  · exact hc
  · rename_i hnp
    rw [countHash_append]
    by_cases hrh : r.transaction_hash = h
    · subst hrh
      have h0 : countHash db r.transaction_hash = 0 := by
        apply countHash_of_absent
        revert hnp
        cases hashPresent db r.transaction_hash <;> simp
      rw [h0]
      simp [countHash]
    · have hbeq : (r.transaction_hash == h) = false := beq_eq_false_iff_ne.2 hrh
      have h1 : countHash [r] h = 0 := by
        simp [countHash, hbeq]
      rw [h1]
      omega

lemma processEntry_countHash (c i : String) (db db2 : DB) (e : Entry) (h : String)
    (hp : processEntry c i db e = .ok db2) (hc : countHash db h ≤ 1) :
    countHash db2 h ≤ 1 := by
  rcases processEntry_ok_shape c i db db2 e hp with rfl | ⟨r, _, rfl⟩
  · exact hc
  · exact insert_countHash_le_one db r h hc

lemma processBatch_countHash (c i : String) (h : String) :
    ∀ (l : List Entry) (db db2 : DB), processBatch c i db l = .ok db2 →
    countHash db h ≤ 1 → countHash db2 h ≤ 1 := by
  intro l
  induction l with
  | nil => intro db db2 hb hc; cases hb; exact hc
  | cons e rest ih =>
    intro db db2 hb hc
    unfold processBatch at hb
    cases he : processEntry c i db e with
    | error err => rw [he] at hb; cases hb
    | ok dbm =>
      rw [he] at hb
      exact ih dbm db2 hb (processEntry_countHash c i db dbm e h he hc)

/-! ## Lemmas about the fetch loop -/

lemma runLoop_fetch_error (c i : String)
    (fetch : Option Nat → Except RetrievalError FetchOk)
    (fuel : Nat) (marker : Option Nat) (db : DB) (err : RetrievalError)
    (hf : fetch marker = .error err) :
    runLoop c i fetch (fuel + 1) marker db = some (.aborted db) := by
  unfold runLoop
  rw [hf]

lemma runLoop_batch_error (c i : String)
    (fetch : Option Nat → Except RetrievalError FetchOk)
    (fuel : Nat) (marker : Option Nat) (db : DB) (resp : FetchOk) (err : PyError)
    (hf : fetch marker = .ok resp)
    (hb : processBatch c i db resp.txs = .error err) :
    runLoop c i fetch (fuel + 1) marker db = some (.aborted db) := by
  unfold runLoop
  rw [hf]
  show (match processBatch c i db resp.txs with
    | .error _ => some (RunOutcome.aborted db)
    | .ok db2 =>
      match resp.marker with
      | none => some (.completed db2)
      | some m => runLoop c i fetch fuel (some m) db2) = some (.aborted db)
  rw [hb]

lemma runLoop_last_page (c i : String)
    (fetch : Option Nat → Except RetrievalError FetchOk)
    (fuel : Nat) (marker : Option Nat) (db db2 : DB) (resp : FetchOk)
    (hf : fetch marker = .ok resp) (hm : resp.marker = none)
    (hb : processBatch c i db resp.txs = .ok db2) :
    runLoop c i fetch (fuel + 1) marker db = some (.completed db2) := by
  unfold runLoop
  rw [hf]
  show (match processBatch c i db resp.txs with
    | .error _ => some (RunOutcome.aborted db)
    | .ok db2 =>
      match resp.marker with
      | none => some (.completed db2)
      | some m => runLoop c i fetch fuel (some m) db2) = some (.completed db2)
  rw [hb, hm]

lemma runLoop_continue (c i : String)
    (fetch : Option Nat → Except RetrievalError FetchOk)
    (fuel : Nat) (marker : Option Nat) (db db2 : DB) (resp : FetchOk) (m : Nat)
    (hf : fetch marker = .ok resp) (hm : resp.marker = some m)
    (hb : processBatch c i db resp.txs = .ok db2) :
    runLoop c i fetch (fuel + 1) marker db = runLoop c i fetch fuel (some m) db2 := by
  conv_lhs => unfold runLoop
  rw [hf]
  show (match processBatch c i db resp.txs with
    | .error _ => some (RunOutcome.aborted db)
    | .ok db2 =>
      match resp.marker with
      | none => some (.completed db2)
      | some m => runLoop c i fetch fuel (some m) db2) =
    runLoop c i fetch fuel (some m) db2
  rw [hb, hm]

lemma runLoop_never_stops (c i : String)
    (fetch : Option Nat → Except RetrievalError FetchOk)
    (hmk : ∀ mk : Option Nat, ∃ resp m, fetch mk = .ok resp ∧ resp.marker = some m)
    (hok : ∀ (mk : Option Nat) (resp : FetchOk) (db : DB), fetch mk = .ok resp →
        ∃ db2, processBatch c i db resp.txs = .ok db2) :
    ∀ (fuel : Nat) (marker : Option Nat) (db : DB),
      runLoop c i fetch fuel marker db = none := by
  intro fuel
  induction fuel with
  | zero => intro marker db; rfl
  | succ fuel ih =>
    intro marker db
    obtain ⟨resp, m, hf, hm⟩ := hmk marker
    obtain ⟨db2, hb⟩ := hok marker resp db hf
    rw [runLoop_continue c i fetch fuel marker db db2 resp m hf hm hb]
    exact ih (some m) db2

lemma mkRecord_of_error (tx : Tx) (err : PyError)
    (h : convert_amount (entryValueStr tx) = .error err) :
    mkRecord tx = .error err := by
  unfold mkRecord
  rw [h]

/-! ## Example values used by the claim witnesses -/

/-- A matching payment entry with a hash, a memo and a ledger date. -/
def txA : Tx :=
  ⟨some "Payment", some (.dict (some ISSUER_ADDRESS) (some "PFT") (some "5.9")),
   some "rSender", some "rDest", some "HASHA", some 0, some 3,
   some [⟨some ⟨some "48656C6C6F"⟩⟩]⟩

def entryA : Entry := ⟨some txA⟩

/-- The row the pipeline stores for txA. -/
def recA : TxRecord :=
  ⟨3, "HASHA", "rSender", "rDest", "Hello", 5, some ⟨2000, 1, 1, 0, 0, 0⟩⟩

/-- A matching payment entry carrying no hash field at all. -/
def txNoHash : Tx :=
  ⟨some "Payment", some (.dict (some "I") (some "PFT") (some "2")),
   none, none, none, none, some 1, none⟩

def entryNoHash : Entry := ⟨some txNoHash⟩

/-- The row the pipeline stores for txNoHash: empty-string hash. -/
def recNoHash : TxRecord := ⟨1, "", "", "", "", 2, none⟩

/-- A payment of a different currency code from the same issuer. -/
def txOther : Tx :=
  ⟨some "Payment", some (.dict (some "I") (some "ABC") (some "1")),
   none, none, some "H2", none, some 1, none⟩

/-- A matching payment whose amount string parses to an infinite float. -/
def txOverflow : Tx :=
  ⟨some "Payment", some (.dict (some "I") (some "PFT") (some "1e999")),
   none, none, some "H3", none, some 1, none⟩

def entryOverflow : Entry := ⟨some txOverflow⟩

/-- A remote whose every response carries no marker. -/
def fetchStop : Option Nat → Except RetrievalError FetchOk := fun _ => .ok ⟨[], none⟩

/-- A remote whose every response carries a marker. -/
def fetchGo : Option Nat → Except RetrievalError FetchOk := fun _ => .ok ⟨[], some 0⟩

/-- A remote whose every raw response lacks the result envelope. -/
def rawBad : Option Nat → RpcResponse := fun _ => ⟨none⟩

/-- A remote serving one final page whose only entry overflows. -/
def fetchOverflow : Option Nat → Except RetrievalError FetchOk :=
  fun _ => .ok ⟨[entryOverflow], none⟩

/-! ## The claims -/

set_option maxRecDepth 8000

/-- C1: persistence is idempotent and insert-only, keyed on
transaction_hash.  First conjunct: for every storage state and record,
inserting when the hash already exists leaves storage completely
unchanged (insert_transaction is total, so no error is reported and
nothing is updated).  Second conjunct: a completed run of the full
pipeline against an unchanged remote source, started from the state a
previous run produced, completes and returns that state unchanged (same
rows, same content). -/
theorem c1_persistence_idempotent :
    (∀ (db : DB) (r : TxRecord),
        hashPresent db r.transaction_hash = true → insert_transaction db r = db) ∧
    (∀ (c i : String) (remoteTxs : List Entry) (db db1 : DB),
        runPipeline c i remoteTxs db = .ok db1 →
        runPipeline c i remoteTxs db1 = .ok db1) := by
  constructor
  · exact insert_of_present
  · intro c i remoteTxs db db1 h1
    unfold runPipeline at h1 ⊢
    apply processBatch_noop
    intro e he hp
    have hmono : get_last_stored_ledger_index db ≤ get_last_stored_ledger_index db1 := by
      obtain ⟨ext, heq, hprop⟩ := processBatch_ext c i _ db db1 h1
      rw [heq]
      apply get_last_le_append
      intro x hx
      obtain ⟨e2, he2, hxe⟩ := hprop x hx
      rw [hxe]
      exact ((mem_accountTx _ _ _).1 he2).2
    have he1 : e ∈ accountTxEntries remoteTxs (runLowerBound db) := by
      rw [mem_accountTx] at he ⊢
      refine ⟨he.1, le_trans ?_ he.2⟩
      unfold runLowerBound
      omega
    exact processBatch_pass_present c i _ db db1 e h1 he1 hp

/-- C1 witness: concrete duplicate insert and concrete second run. -/
theorem c1_persistence_idempotent_witness :
    insert_transaction [recA] recA = [recA] ∧
    runPipeline "PFT" ISSUER_ADDRESS [entryA] [recA] = .ok [recA] :=
  ⟨c1_persistence_idempotent.1 [recA] recA (by decide),
   c1_persistence_idempotent.2 "PFT" ISSUER_ADDRESS [entryA] [] [recA] (by decide)⟩

/-- C2: filter precision.  First conjunct: is_token_payment holds iff the
type is Payment, the amount is the structured dictionary form, and its
issuer and currency code exactly equal the configured values.  Second
conjunct: an entry failing the filter is dropped without modifying
storage.  Third conjunct: a payment of a different currency code from the
same issuer never passes the filter. -/
theorem c2_filter_precision :
    (∀ (tx : Tx) (c i : String),
        is_token_payment tx c i = true ↔
          tx.TransactionType = some "Payment" ∧
          ∃ v, tx.Amount = some (.dict (some i) (some c) v)) ∧
    (∀ (c i : String) (db : DB) (e : Entry),
        is_token_payment e.getTx c i = false → processEntry c i db e = .ok db) ∧
    (∀ (tx : Tx) (c c2 i : String) (v : Option String),
        tx.Amount = some (.dict (some i) (some c2) v) → c2 ≠ c →
        is_token_payment tx c i = false) := by
  refine ⟨is_token_payment_iff, processEntry_skip, ?_⟩
  intro tx c c2 i v ha hne
  by_contra hct
  have htrue : is_token_payment tx c i = true := by
    revert hct
    cases is_token_payment tx c i <;> simp
  obtain ⟨-, v2, hv⟩ := (is_token_payment_iff tx c i).1 htrue
  rw [ha] at hv
  injection hv with hv
  injection hv with h1 h2 h3
  injection h2 with h2
  exact hne h2

/-- C2 witness: a non-payment entry leaves storage unchanged, and a
payment of currency ABC from issuer I is rejected by the PFT filter. -/
theorem c2_filter_precision_witness :
    processEntry "PFT" "I" [] (⟨some emptyTx⟩ : Entry) = .ok [] ∧
    is_token_payment txOther "PFT" "I" = false :=
  ⟨c2_filter_precision.2.1 "PFT" "I" [] ⟨some emptyTx⟩ (by decide),
   c2_filter_precision.2.2 txOther "PFT" "ABC" "I" (some "1") (by decide) (by decide)⟩

/-- C3: the decoder follows the hex-then-base64-then-identity fallback
chain in that order.  A hex-decodable string decodes through hex (so even
when it is also valid base64); a hex-failing, base64-decodable string
decodes through base64; a string failing both is returned unchanged;
every decode goes through utf8DecodeReplace, which replaces invalid
bytes rather than rejecting them, and the whole chain is a total
function, so decoding never raises.  All decoded memo entries are joined
with newline separators, and an absent or empty Memos list yields the
empty string. -/
theorem c3_decoder_fallback :
    (∀ (s : String) (bs : List Nat), bytesFromHex s = some bs →
        decode_hex_or_base64 s = utf8DecodeReplace bs) ∧
    (∀ (s : String) (bs : List Nat), bytesFromHex s = none → b64decode s = some bs →
        decode_hex_or_base64 s = utf8DecodeReplace bs) ∧
    (∀ s : String, bytesFromHex s = none → b64decode s = none →
        decode_hex_or_base64 s = s) ∧
    (∀ tx : Tx, extract_memos tx = String.intercalate "\n"
        ((tx.Memos.getD []).map (fun me => decode_hex_or_base64 (memoEntryData me)))) ∧
    (∀ tx : Tx, tx.Memos = none → extract_memos tx = "") ∧
    (∀ tx : Tx, tx.Memos = some [] → extract_memos tx = "") :=
  ⟨decode_hex_branch, decode_b64_branch, decode_id_branch, extract_memos_join,
   extract_memos_absent, fun tx h => by unfold extract_memos; rw [h]; rfl⟩

/-- C3 witness: deadbeef is valid base64 as well, yet decodes through
hex; SGVsbG8= is not hex and decodes through base64 to Hello; xyz fails
both and is returned unchanged; an absent Memos list yields the empty
string. -/
theorem c3_decoder_fallback_witness :
    decode_hex_or_base64 "deadbeef" = utf8DecodeReplace [222, 173, 190, 239] ∧
    b64decode "deadbeef" = some [117, 230, 157, 109, 231, 159] ∧
    decode_hex_or_base64 "SGVsbG8=" = utf8DecodeReplace [72, 101, 108, 108, 111] ∧
    decode_hex_or_base64 "xyz" = "xyz" ∧
    extract_memos txNoHash = "" :=
  ⟨c3_decoder_fallback.1 "deadbeef" [222, 173, 190, 239] (by decide),
   by decide,
   c3_decoder_fallback.2.1 "SGVsbG8=" [72, 101, 108, 108, 111] (by decide) (by decide),
   c3_decoder_fallback.2.2.1 "xyz" (by decide) (by decide),
   c3_decoder_fallback.2.2.2.2.1 txNoHash rfl⟩

/-- C4: the resumption cursor returns -1 on empty storage and the
maximum ledger_index over all stored records otherwise, and the run
always fetches from that value plus 1 (hence from 0 on empty storage). -/
theorem c4_resumption_cursor :
    get_last_stored_ledger_index [] = -1 ∧
    (∀ db : DB, db ≠ [] →
        (∃ r ∈ db, get_last_stored_ledger_index db = r.ledger_index) ∧
        ∀ r ∈ db, r.ledger_index ≤ get_last_stored_ledger_index db) ∧
    (∀ db : DB, runLowerBound db = get_last_stored_ledger_index db + 1) ∧
    runLowerBound [] = 0 ∧
    (∀ (c i : String) (remoteTxs : List Entry) (db : DB),
        runPipeline c i remoteTxs db =
          processBatch c i db (accountTxEntries remoteTxs (runLowerBound db))) :=
  ⟨rfl,
   fun db h => ⟨get_last_is_mem db h, fun r hr => get_last_mem_le db r hr⟩,
   fun _ => rfl, rfl, fun _ _ _ _ => rfl⟩

/-- C4 witness: the cursor on a concrete nonempty table is the maximum
and bounds every row. -/
theorem c4_resumption_cursor_witness :
    (∃ r ∈ [recA], get_last_stored_ledger_index [recA] = r.ledger_index) ∧
    ∀ r ∈ [recA], r.ledger_index ≤ get_last_stored_ledger_index [recA] :=
  c4_resumption_cursor.2.1 [recA] (by simp)

/-- C5: amount conversion parses the decimal string as a float and
truncates toward zero, so 123.99 persists as 123 and not 124; a parse
failure yields 0 with no error; in general a finite parse truncates and
a failed parse gives 0; and the amount stored in a built row is exactly
the conversion of the value string the source extracts. -/
theorem c5_amount_truncation :
    convert_amount "123.99" = .ok 123 ∧
    convert_amount "abc" = .ok 0 ∧
    (∀ s : String, pyFloatParse s = none → convert_amount s = .ok 0) ∧
    (∀ (s : String) (m e : Int), pyFloatParse s = some (.finite m e) →
        convert_amount s = .ok (decTrunc m e)) ∧
    (∀ (tx : Tx) (r : TxRecord), mkRecord tx = .ok r →
        convert_amount (entryValueStr tx) = .ok r.amount) := by
  refine ⟨by decide, by decide, ?_, ?_, ?_⟩
  · intro s h
    unfold convert_amount
    rw [h]
  · intro s m e h
    unfold convert_amount
    rw [h]
  · intro tx r h
    exact (mkRecord_fields tx r h).2.2.2.2

/-- C5 witness: concrete parse failure, concrete finite truncation, and
the concrete row built for txA stores the truncation of 5.9, namely 5. -/
theorem c5_amount_truncation_witness :
    convert_amount "zz" = .ok 0 ∧
    convert_amount "-7.5" = .ok (decTrunc (-75) (-1)) ∧
    convert_amount (entryValueStr txA) = .ok recA.amount :=
  ⟨c5_amount_truncation.2.2.1 "zz" (by decide),
   c5_amount_truncation.2.2.2.1 "-7.5" (-75) (-1) (by decide),
   c5_amount_truncation.2.2.2.2 txA recA (by decide)⟩

/-- C6: timestamp conversion adds the fixed 946684800-second offset to
the ledger epoch value, so a ledger time t persists as the UTC instant
t + 946684800 seconds after 1970-01-01T00:00:00 UTC; ledger time 0
renders as 2000-01-01T00:00:00 UTC; and an absent ledger date persists
as an absent timestamp, not zero. -/
theorem c6_timestamp_conversion :
    (∀ t : Int, ripple_to_unix_time t = t + 946684800) ∧
    get_ripple_datetime 0 = ⟨2000, 1, 1, 0, 0, 0⟩ ∧
    (∀ t : Int, get_ripple_datetime t = utcfromtimestamp (t + 946684800)) ∧
    (∀ (tx : Tx) (r : TxRecord) (t : Int), mkRecord tx = .ok r → tx.date = some t →
        r.transaction_timestamp = some (utcfromtimestamp (t + 946684800))) ∧
    (∀ (tx : Tx) (r : TxRecord), mkRecord tx = .ok r → tx.date = none →
        r.transaction_timestamp = none) := by
  refine ⟨fun t => rfl, by decide, fun t => rfl, ?_, ?_⟩
  · intro tx r t h hd
    rw [(mkRecord_fields tx r h).2.2.1, hd]
    rfl
  · intro tx r h hd
    rw [(mkRecord_fields tx r h).2.2.1, hd]
    rfl

/-- C6 witness: the row built for txA (ledger date 0) stores the instant
946684800 seconds after the standard epoch, and the row built for
txNoHash (absent date) stores no timestamp. -/
theorem c6_timestamp_conversion_witness :
    recA.transaction_timestamp = some (utcfromtimestamp (0 + 946684800)) ∧
    recNoHash.transaction_timestamp = none :=
  ⟨c6_timestamp_conversion.2.2.2.1 txA recA 0 (by decide) rfl,
   c6_timestamp_conversion.2.2.2.2 txNoHash recNoHash (by decide) rfl⟩

/-- C7: pagination termination.  First conjunct: whatever state the loop
is in (so regardless of how many pages preceded), a response with no
continuation marker ends the run right after that page is processed and
committed.  Second conjunct: a response with a marker makes the loop
continue with that marker.  Third conjunct: a remote that always returns
a marker makes the loop run forever (no fuel bound suffices). -/
theorem c7_pagination_termination :
    (∀ (c i : String) (fetch : Option Nat → Except RetrievalError FetchOk)
        (fuel : Nat) (marker : Option Nat) (db db2 : DB) (resp : FetchOk),
        fetch marker = .ok resp → resp.marker = none →
        processBatch c i db resp.txs = .ok db2 →
        runLoop c i fetch (fuel + 1) marker db = some (.completed db2)) ∧
    (∀ (c i : String) (fetch : Option Nat → Except RetrievalError FetchOk)
        (fuel : Nat) (marker : Option Nat) (db db2 : DB) (resp : FetchOk) (m : Nat),
        fetch marker = .ok resp → resp.marker = some m →
        processBatch c i db resp.txs = .ok db2 →
        runLoop c i fetch (fuel + 1) marker db = runLoop c i fetch fuel (some m) db2) ∧
    (∀ (c i : String) (fetch : Option Nat → Except RetrievalError FetchOk),
        (∀ mk : Option Nat, ∃ resp m, fetch mk = .ok resp ∧ resp.marker = some m) →
        (∀ (mk : Option Nat) (resp : FetchOk) (db : DB), fetch mk = .ok resp →
            ∃ db2, processBatch c i db resp.txs = .ok db2) →
        ∀ (fuel : Nat) (marker : Option Nat) (db : DB),
          runLoop c i fetch fuel marker db = none) :=
  ⟨runLoop_last_page, runLoop_continue, runLoop_never_stops⟩

/-- C7 witness: a markerless response stops the loop immediately even
with fuel to spare; a marker continues it; a remote that always returns
markers never terminates within any fuel bound. -/
theorem c7_pagination_termination_witness :
    runLoop "PFT" "I" fetchStop 1 none [] = some (.completed []) ∧
    runLoop "PFT" "I" fetchGo 3 none [] = runLoop "PFT" "I" fetchGo 2 (some 0) [] ∧
    runLoop "PFT" "I" fetchGo 5 none [] = none :=
  ⟨c7_pagination_termination.1 "PFT" "I" fetchStop 0 none [] [] ⟨[], none⟩ rfl rfl rfl,
   c7_pagination_termination.2.1 "PFT" "I" fetchGo 2 none [] [] ⟨[], some 0⟩ 0 rfl rfl rfl,
   c7_pagination_termination.2.2 "PFT" "I" fetchGo
     (fun mk => ⟨⟨[], some 0⟩, 0, rfl, rfl⟩)
     (fun mk resp db hf => by
        injection hf with h
        subst h
        exact ⟨db, rfl⟩)
     5 none []⟩

/-- C8: a remote response lacking the result envelope makes the fetch
raise RetrievalError, and the run aborts immediately at that fetch with
storage exactly as committed by the earlier iterations (the db argument
threaded into that iteration); no retry happens because the loop returns
at once. -/
theorem c8_missing_envelope_fatal :
    (∀ resp : RpcResponse, resp.result = none →
        fetch_account_transactions resp = .error .unexpectedResponse) ∧
    (∀ (c i : String) (fetch : Option Nat → Except RetrievalError FetchOk)
        (fuel : Nat) (marker : Option Nat) (db : DB) (err : RetrievalError),
        fetch marker = .error err →
        runLoop c i fetch (fuel + 1) marker db = some (.aborted db)) ∧
    (∀ (c i : String) (raw : Option Nat → RpcResponse) (fuel : Nat)
        (marker : Option Nat) (db : DB), (raw marker).result = none →
        runLoop c i (fetchOf raw) (fuel + 1) marker db = some (.aborted db)) := by
  have h1 : ∀ resp : RpcResponse, resp.result = none →
      fetch_account_transactions resp = .error .unexpectedResponse := by
    intro resp h
    unfold fetch_account_transactions
    rw [h]
  refine ⟨h1, runLoop_fetch_error, ?_⟩
  intro c i raw fuel marker db h
  exact runLoop_fetch_error c i (fetchOf raw) fuel marker db .unexpectedResponse
    (h1 (raw marker) h)

/-- C8 witness: a concrete envelope-less response aborts a run holding
one committed row, retaining exactly that row. -/
theorem c8_missing_envelope_fatal_witness :
    fetch_account_transactions ⟨none⟩ = .error .unexpectedResponse ∧
    runLoop "PFT" "I" (fetchOf rawBad) 1 none [recA] = some (.aborted [recA]) :=
  ⟨c8_missing_envelope_fatal.1 ⟨none⟩ rfl,
   c8_missing_envelope_fatal.2.2 "PFT" "I" rawBad 0 none [recA] rfl⟩

/-- C9: the amount conversion is not total.  The string 1e999 parses to
an infinite float; int on it raises OverflowError, which the except
ValueError clause does not catch, so conversion errors instead of
degrading to 0; any entry that passes the filter and carries such an
amount makes per-entry processing raise; and a batch containing it makes
the run abort with the storage of the last commit. -/
theorem c9_amount_overflow_aborts :
    pyFloatParse "1e999" = some (.inf false) ∧
    convert_amount "1e999" = .error .overflowError ∧
    (∀ (s : String) (b : Bool), pyFloatParse s = some (.inf b) →
        convert_amount s = .error .overflowError) ∧
    (∀ (c i : String) (db : DB) (e : Entry),
        is_token_payment e.getTx c i = true →
        convert_amount (entryValueStr e.getTx) = .error .overflowError →
        processEntry c i db e = .error .overflowError) ∧
    (∀ (c i : String) (fetch : Option Nat → Except RetrievalError FetchOk)
        (fuel : Nat) (marker : Option Nat) (db : DB) (resp : FetchOk) (err : PyError),
        fetch marker = .ok resp → processBatch c i db resp.txs = .error err →
        runLoop c i fetch (fuel + 1) marker db = some (.aborted db)) := by
  refine ⟨by decide, by decide, ?_, ?_, runLoop_batch_error⟩
  · intro s b h
    unfold convert_amount
    rw [h]
  · intro c i db e hp hconv
    unfold processEntry
    rw [if_pos hp, mkRecord_of_error _ _ hconv]

/-- C9 witness: 2e308 also overflows; the overflowing entry aborts
per-entry processing; and a page containing it aborts the whole loop
with storage unchanged. -/
theorem c9_amount_overflow_aborts_witness :
    convert_amount "2e308" = .error .overflowError ∧
    processEntry "PFT" "I" [] entryOverflow = .error .overflowError ∧
    runLoop "PFT" "I" fetchOverflow 1 none [] = some (.aborted []) :=
  ⟨c9_amount_overflow_aborts.2.2.1 "2e308" false (by decide),
   c9_amount_overflow_aborts.2.2.2.1 "PFT" "I" [] entryOverflow (by decide) (by decide),
   c9_amount_overflow_aborts.2.2.2.2 "PFT" "I" fetchOverflow 0 none []
     ⟨[entryOverflow], none⟩ .overflowError rfl (by decide)⟩

/-- C10: a filter-passing transaction without a hash field is persisted
with transaction_hash equal to the empty string (first and second
conjuncts); once a row with the empty hash exists, every further
hashless matching transaction is silently dropped as its duplicate
(third conjunct); and batch processing preserves the invariant that at
most one empty-hash row exists (fourth conjunct). -/
theorem c10_hashless_dedup :
    (∀ (tx : Tx) (r : TxRecord), tx.hash = none → mkRecord tx = .ok r →
        r.transaction_hash = "") ∧
    (∀ (c i : String) (db : DB) (e : Entry) (r : TxRecord),
        is_token_payment e.getTx c i = true → e.getTx.hash = none →
        mkRecord e.getTx = .ok r → hashPresent db "" = false →
        processEntry c i db e = .ok (db ++ [r]) ∧ r.transaction_hash = "") ∧
    (∀ (c i : String) (db : DB) (e : Entry) (r : TxRecord),
        is_token_payment e.getTx c i = true → e.getTx.hash = none →
        mkRecord e.getTx = .ok r → hashPresent db "" = true →
        processEntry c i db e = .ok db) ∧
    (∀ (c i : String) (l : List Entry) (db db2 : DB),
        processBatch c i db l = .ok db2 → countHash db "" ≤ 1 →
        countHash db2 "" ≤ 1) := by
  have hhash : ∀ (tx : Tx) (r : TxRecord), tx.hash = none → mkRecord tx = .ok r →
      r.transaction_hash = "" := by
    intro tx r hh hm
    rw [(mkRecord_fields tx r hm).1, hh]
    rfl
  refine ⟨hhash, ?_, ?_, ?_⟩
  · intro c i db e r hp hh hm habs
    have hr : r.transaction_hash = "" := hhash _ r hh hm
    refine ⟨?_, hr⟩
    unfold processEntry
    rw [if_pos hp, hm]
    show Except.ok (insert_transaction db r) = _
    unfold insert_transaction
    rw [hr, if_neg (by rw [habs]; exact Bool.false_ne_true)]
  · intro c i db e r hp hh hm hpres
    have hr : r.transaction_hash = "" := hhash _ r hh hm
    unfold processEntry
    rw [if_pos hp, hm]
    show Except.ok (insert_transaction db r) = _
    rw [insert_of_present db r (by rw [hr]; exact hpres)]
  · intro c i l db db2 hb hc
    exact processBatch_countHash c i "" l db db2 hb hc

/-- C10 witness: the concrete hashless entry is stored with an empty
hash into empty storage, is dropped against storage already holding the
empty-hash row, and the invariant holds on the concrete batch. -/
theorem c10_hashless_dedup_witness :
    processEntry "PFT" "I" [] entryNoHash = .ok ([] ++ [recNoHash]) ∧
    processEntry "PFT" "I" [recNoHash] entryNoHash = .ok [recNoHash] ∧
    countHash [recNoHash] "" ≤ 1 :=
  ⟨(c10_hashless_dedup.2.1 "PFT" "I" [] entryNoHash recNoHash
      (by decide) rfl (by decide) rfl).1,
   c10_hashless_dedup.2.2.1 "PFT" "I" [recNoHash] entryNoHash recNoHash
      (by decide) rfl (by decide) (by decide),
   c10_hashless_dedup.2.2.2 "PFT" "I" [entryNoHash] [] [recNoHash]
      (by decide) (by decide)⟩

end TransactionFeed
